import Mathlib

/-!
Verification of the JARVIS live-audio client.

Shallow embedding of `services/liveClient.ts`, `App.tsx` and `types.ts`,
together with the PCM codec of `utils/audioUtils.ts` (that file is not part
of the sources, so the codec is modelled from the specification's words).
Times and audio samples are rationals; the volume signal, which the code
obtains through a square root, lives in the reals.
-/

/-- Modelled from the spec: `utils/audioUtils.ts` is missing from the
sources.  Per the spec, `encode` maps each float sample in [-1,1] to a
16-bit signed integer by linear scaling, clamped to the signed 16-bit
range. -/
def encodeSample (s : ℚ) : ℤ :=
  min 32767 (max (-32768) (round (s * 32768)))

/-- Modelled from the spec: the inverse mapping divides by the signed
16-bit range. -/
def decodeSample (n : ℤ) : ℚ := (n : ℚ) / 32768

/-- Little-endian byte pair of a 16-bit integer (two's complement). -/
def toLEBytes (n : ℤ) : List ℕ :=
  [(n % 65536).toNat % 256, (n % 65536).toNat / 256]

/-- Reassemble a signed 16-bit integer from its two little-endian bytes. -/
def fromPair (lo hi : ℕ) : ℤ :=
  let m := lo + 256 * hi
  if m < 32768 then (m : ℤ) else (m : ℤ) - 65536

/-- Modelled from the spec: byte payload of `createPcmBlob` — every sample
encoded to two bytes, little-endian, in order. -/
def encodeList : List ℚ → List ℕ
  | [] => []
  | s :: r => toLEBytes (encodeSample s) ++ encodeList r

/-- The PCM blob forwarded to the outbound channel for one captured frame
(liveClient.ts line 146). -/
def createPcmBlob : List ℚ → List ℕ := encodeList

/-- Failure value for malformed byte input. -/
inductive DecodeErr
  | truncated
deriving DecidableEq

/-- Modelled from the spec: `decodeAudioData` — parse consecutive
little-endian 16-bit samples; truncated input (a dangling byte) fails with
a DecodeError instead of producing garbage. -/
def decodeBytes : List ℕ → Except DecodeErr (List ℚ)
  | [] => .ok []
  | lo :: hi :: rest => (decodeBytes rest).map (fun l => decodeSample (fromPair lo hi) :: l)
  | [_] => .error .truncated

/-- One scheduled playback handle (an `AudioBufferSourceNode` held in the
`sources` set of liveClient.ts). -/
structure Source where
  start : ℚ
  dur : ℚ
  stopped : Bool
  finished : Bool
deriving DecidableEq

/-- Playback-scheduler state of `LiveClient`: the live source set and the
`nextStartTime` clock (liveClient.ts lines 35-36). -/
structure LCState where
  sources : List Source
  nextStartTime : ℚ
deriving DecidableEq

/-- `source.stop()`: stopping a node that has already finished raises
InvalidStateError; otherwise the node is marked stopped. -/
def sourceStop (s : Source) : Except String Source :=
  if s.finished then .error "InvalidStateError" else .ok { s with stopped := true }

/-- The guarded stop from `stopAllAudio`: the raised error, if any, is
swallowed and the handle left as it was. -/
def tryStop (s : Source) : Source :=
  match sourceStop s with
  | .ok s' => s'
  | .error _ => s

/-- `stopAllAudio` (liveClient.ts lines 221-227): stop every source in the
live set, clear the set, reset the clock to 0; the second component records
the handles after their stop attempt. -/
def stopAll (st : LCState) : LCState × List Source :=
  (⟨[], 0⟩, st.sources.map tryStop)

/-- One audio enqueue (liveClient.ts lines 193-213), abstracted over the
chunk duration: schedule at max(clock, device time `t`), then advance the
clock by the duration; returns the new state and the scheduled start. -/
def enqueueDur (st : LCState) (t dur : ℚ) : LCState × ℚ :=
  let s := max st.nextStartTime t
  (⟨⟨s, dur, false, false⟩ :: st.sources, s + dur⟩, s)

/-- Record of one scheduled chunk: device time at enqueue, scheduled start,
duration. -/
structure Sched where
  t : ℚ
  start : ℚ
  dur : ℚ
deriving DecidableEq

/-- A sequence of enqueues without an intervening interruption; each input
pair is (device time at that enqueue, chunk duration). -/
def enqueueSeq (st : LCState) : List (ℚ × ℚ) → LCState × List Sched
  | [] => (st, [])
  | (t, d) :: rest =>
    let p := enqueueDur st t d
    let q := enqueueSeq p.1 rest
    (q.1, ⟨t, p.2, d⟩ :: q.2)

/-- One entry of an inbound tool-call batch. -/
structure FC where
  id : ℕ
  name : String
  mode : String
deriving DecidableEq

/-- Acknowledgement pushed for one handled tool call. -/
structure Resp where
  id : ℕ
  name : String
  result : String
deriving DecidableEq

/-- Response record built at liveClient.ts lines 171-175. -/
def mkResp (fc : FC) : Resp :=
  ⟨fc.id, fc.name, "Mode set to " ++ fc.mode⟩

/-- Tool-call loop of `handleMessage` (liveClient.ts lines 159-185):
every entry named `setAssistantMode` yields one onModeChange notification
carrying the raw mode string (the code casts `args.mode` without
validating it) and one response; entries with any other name are skipped. -/
def handleToolCall : List FC → List String × List Resp
  | [] => ([], [])
  | fc :: rest =>
    let p := handleToolCall rest
    if fc.name = "setAssistantMode" then (fc.mode :: p.1, mkResp fc :: p.2) else p

/-- One inbound server message: the tool-call batch, the content parts
(each part's optional inline audio bytes), and the interrupted flag. -/
structure ServerMsg where
  toolCalls : List FC
  parts : List (Option (List ℕ))
  interrupted : Bool

/-- Observable per-message output of the handler. -/
structure MsgOutput where
  notifications : List String
  responses : List Resp
  scheduled : List (List ℚ)
  decodeFailed : Bool
deriving DecidableEq

/-- The `serverContent?.interrupted` check at liveClient.ts lines 216-218. -/
def applyInterruptFlag (intr : Bool) (st : LCState) : LCState :=
  if intr then (stopAll st).1 else st

/-- `handleMessage` (liveClient.ts lines 157-219) for a connected session
(output context and node present): the tool-call batch is handled first;
then, if the FIRST content part carries inline data, the clock is bumped to
max(clock, device time `t`) and the bytes are decoded — a decode failure
aborts the rest of the handler, so the interrupted check is skipped — and
on success the chunk is scheduled; finally the interrupted flag is
honoured. -/
def handleMessage (st : LCState) (t : ℚ) (msg : ServerMsg) : LCState × MsgOutput :=
  let p := handleToolCall msg.toolCalls
  let out : MsgOutput := ⟨p.1, p.2, [], false⟩
  match msg.parts with
  | [] => (applyInterruptFlag msg.interrupted st, out)
  | none :: _ => (applyInterruptFlag msg.interrupted st, out)
  | some bytes :: _ =>
    let st1 : LCState := ⟨st.sources, max st.nextStartTime t⟩
    match decodeBytes bytes with
    | .error _ => (st1, { out with decodeFailed := true })
    | .ok samples =>
      let d : ℚ := (samples.length : ℚ) / 24000
      let st2 := (enqueueDur st1 t d).1
      (applyInterruptFlag msg.interrupted st2, { out with scheduled := [samples] })

/-- The `onmessage` dispatcher: inbound messages are handled one at a time
in arrival order; each invocation is fire-and-forget, so a rejected handler
does not stop the following messages from being handled. -/
def runSession (st : LCState) : List (ℚ × ServerMsg) → LCState × List MsgOutput
  | [] => (st, [])
  | (t, m) :: rest =>
    let p := handleMessage st t m
    let q := runSession p.1 rest
    (q.1, p.2 :: q.2)

/-- Connection lifecycle states of `types.ts`; the spec's FAILED absorbing
state is the ERROR member here. -/
inductive ConnectionState
  | IDLE | REQUESTING_PERMISSION | CONNECTING | CONNECTED | ERROR
deriving DecidableEq

/-- Error taxonomy surfaced during connect. -/
inductive ConnErr
  | permissionDenied | deviceUnavailable | connectionError
deriving DecidableEq

/-- Caller-facing callback events emitted by the client. -/
inductive CbEvent
  | evOpen
  | evError (e : ConnErr)
  | evClose
deriving DecidableEq

/-- The App.tsx callback handlers: onOpen sets CONNECTED, onError sets
ERROR, onClose resets to IDLE. -/
def appStep (_ : ConnectionState) : CbEvent → ConnectionState
  | .evOpen => .CONNECTED
  | .evError _ => .ERROR
  | .evClose => .IDLE

/-- Device-resource fields of `LiveClient`: for each field `none` means the
underlying object was never created; for the contexts `some b` has b =
closed, for the stream b = tracks stopped, for the tap and the script
processor b = connected. -/
structure ClientRes where
  inputCtx : Option Bool
  outputCtx : Option Bool
  stream : Option Bool
  tap : Option Bool
  proc : Option Bool
  lc : LCState
deriving DecidableEq

/-- `AudioContext.close()`: closing an already-closed context rejects with
InvalidStateError (Web Audio API); otherwise the context becomes closed. -/
def closeCtx (closed : Bool) : Except String Bool :=
  if closed then .error "InvalidStateError" else .ok true

/-- The guarded `if (ctx) await ctx.close()` step: returns the context
field afterwards and the error, if the close rejected. -/
def closeOpt : Option Bool → Option Bool × Option String
  | none => (none, none)
  | some c =>
    match closeCtx c with
    | .ok c' => (some c', none)
    | .error e => (some c, some e)

/-- `disconnect()` (liveClient.ts lines 229-243): stop all playback,
disconnect the capture nodes, stop the stream tracks, then await closing
the input context and after it the output context; a rejected close aborts
the remaining steps and the rejection propagates to the caller (second
component). -/
def disconnect (r : ClientRes) : ClientRes × Option String :=
  let r1 : ClientRes :=
    { r with
      lc := (stopAll r.lc).1
      tap := r.tap.map (fun _ => false)
      proc := r.proc.map (fun _ => false)
      stream := r.stream.map (fun _ => true) }
  let p1 := closeOpt r1.inputCtx
  let r2 : ClientRes := { r1 with inputCtx := p1.1 }
  match p1.2 with
  | some e => (r2, some e)
  | none =>
    let p2 := closeOpt r2.outputCtx
    ({ r2 with outputCtx := p2.1 }, p2.2)

/-- Resource state right after the two context constructions at the top of
`connect` (liveClient.ts lines 48-53). -/
def connectBase : ClientRes :=
  ⟨some false, some false, none, none, none, ⟨[], 0⟩⟩

/-- `connect` (liveClient.ts lines 46-126), parametrized by the two
external outcomes: microphone permission and the remote handshake.
Returns the emitted callback events, the resulting resource state, and the
number of session-open attempts.  A failure at either point reaches only
the single `catch`, which calls onError once; nothing is retried and no
resource is released on either error path. -/
def connectRun (perm : Except ConnErr Unit) (handshake : Except ConnErr Unit) :
    List CbEvent × ClientRes × ℕ :=
  match perm with
  | .error e => ([CbEvent.evError e], connectBase, 0)
  | .ok _ =>
    let withStream : ClientRes := { connectBase with stream := some false }
    match handshake with
    | .error e => ([CbEvent.evError e], withStream, 1)
    | .ok _ =>
      ([CbEvent.evOpen], { withStream with tap := some true, proc := some true }, 1)

/-- A client whose `connect` completed successfully. -/
def connectedRes : ClientRes :=
  ⟨some false, some false, some false, some true, some true, ⟨[], 0⟩⟩

/-- A client on which `connect` was never run. -/
def idleRes : ClientRes :=
  ⟨none, none, none, none, none, ⟨[], 0⟩⟩

/-- Sum of squares accumulated by the `onaudioprocess` loop
(liveClient.ts lines 139-142). -/
def sumSq : List ℚ → ℚ
  | [] => 0
  | x :: r => x * x + sumSq r

/-- Volume handed to the onAudioData callback (liveClient.ts lines
143-144): the RMS of the frame, scaled by 100. -/
noncomputable def frameVolume (f : List ℚ) : ℝ :=
  Real.sqrt (((sumSq f / (f.length : ℚ)) : ℚ) : ℝ) * 100

/-! ## Codec lemmas -/

theorem encodeSample_le (s : ℚ) : encodeSample s ≤ 32767 :=
  min_le_left _ _

theorem neg_le_encodeSample (s : ℚ) : -32768 ≤ encodeSample s :=
  le_min (by norm_num) (le_max_left _ _)

theorem fromPair_toLEBytes (n : ℤ) (h1 : -32768 ≤ n) (h2 : n ≤ 32767) :
    fromPair ((n % 65536).toNat % 256) ((n % 65536).toNat / 256) = n := by
  have hnn : 0 ≤ n % 65536 := Int.emod_nonneg n (by norm_num)
  have hlt : n % 65536 < 65536 := Int.emod_lt_of_pos n (by norm_num)
  have hm : ((n % 65536).toNat : ℤ) = n % 65536 := Int.toNat_of_nonneg hnn
  simp only [fromPair]
  split <;> push_cast <;> omega

theorem decodeBytes_encodeList (S : List ℚ) :
    decodeBytes (encodeList S) = .ok (S.map fun s => decodeSample (encodeSample s)) := by
  induction S with
  | nil => rfl
  | cons s r ih =>
    have h := fromPair_toLEBytes (encodeSample s) (neg_le_encodeSample s) (encodeSample_le s)
    simp [encodeList, toLEBytes, decodeBytes, ih, h, Except.map]

theorem sample_roundtrip_close (s : ℚ) (h1 : -1 ≤ s) (h2 : s ≤ 1) :
    |s - decodeSample (encodeSample s)| ≤ 1 / 32768 := by
  have hr : |s * 32768 - (round (s * 32768) : ℚ)| ≤ 1 / 2 := abs_sub_round (s * 32768)
  obtain ⟨ha, hb⟩ := abs_le.mp hr
  have hn0_ge : -32768 ≤ round (s * 32768) := by
    have hq : (-32769 : ℚ) < (round (s * 32768) : ℚ) := by nlinarith
    have hz : (-32769 : ℤ) < round (s * 32768) := by exact_mod_cast hq
    omega
  rcases le_or_lt (round (s * 32768)) 32767 with hle | hgt
  · have he : encodeSample s = round (s * 32768) := by
      unfold encodeSample
      rw [max_eq_right hn0_ge, min_eq_right hle]
    rw [he]
    unfold decodeSample
    have hrw : s - (round (s * 32768) : ℚ) / 32768
        = (s * 32768 - (round (s * 32768) : ℚ)) / 32768 := by ring
    rw [hrw, abs_div, abs_of_pos (by norm_num : (0 : ℚ) < 32768)]
    rw [div_le_div_iff₀ (by norm_num) (by norm_num)]
    nlinarith [abs_le.mpr ⟨ha, hb⟩]
  · have he : encodeSample s = 32767 := by
      unfold encodeSample
      rw [max_eq_right hn0_ge, min_eq_left (by omega : (32767 : ℤ) ≤ round (s * 32768))]
    rw [he]
    unfold decodeSample
    have hq : (32768 : ℚ) ≤ (round (s * 32768) : ℚ) := by
      exact_mod_cast (by omega : (32768 : ℤ) ≤ round (s * 32768))
    have h0 : 0 ≤ s - ((32767 : ℤ) : ℚ) / 32768 := by push_cast; nlinarith
    rw [abs_of_nonneg h0]
    push_cast
    nlinarith

/-- C4: decoding the 16-bit little-endian PCM encoding of any sample
sequence with values in [-1,1] succeeds and reconstructs every sample with
absolute error at most 1/32768. -/
theorem c4_pcm_roundtrip (S : List ℚ) (h : ∀ s ∈ S, -1 ≤ s ∧ s ≤ 1) :
    decodeBytes (encodeList S) = .ok (S.map fun s => decodeSample (encodeSample s)) ∧
    ∀ s ∈ S, |s - decodeSample (encodeSample s)| ≤ 1 / 32768 := by
  refine ⟨decodeBytes_encodeList S, fun s hs => ?_⟩
  exact sample_roundtrip_close s (h s hs).1 (h s hs).2

theorem c4_pcm_roundtrip_wit :
    (∀ s ∈ ([1, -1, 1/2, 0] : List ℚ), -1 ≤ s ∧ s ≤ 1) ∧
    (decodeBytes (encodeList [1, -1, 1/2, 0]) =
        .ok (([1, -1, 1/2, 0] : List ℚ).map fun s => decodeSample (encodeSample s)) ∧
      ∀ s ∈ ([1, -1, 1/2, 0] : List ℚ), |s - decodeSample (encodeSample s)| ≤ 1 / 32768) :=
  ⟨by norm_num, c4_pcm_roundtrip _ (by norm_num)⟩

/-! ## Playback scheduler -/

theorem enqueueSeq_nil (st : LCState) : enqueueSeq st [] = (st, []) := rfl

theorem enqueueSeq_cons (st : LCState) (t d : ℚ) (rest : List (ℚ × ℚ)) :
    enqueueSeq st ((t, d) :: rest) =
      ((enqueueSeq (enqueueDur st t d).1 rest).1,
        ⟨t, max st.nextStartTime t, d⟩ :: (enqueueSeq (enqueueDur st t d).1 rest).2) := rfl

theorem enqueueSeq_head_start (st : LCState) (t d : ℚ) (rest : List (ℚ × ℚ)) :
    ((enqueueSeq st ((t, d) :: rest)).2.head?).map Sched.start
      = some (max st.nextStartTime t) := rfl

/-- C1 (amended): every enqueue schedules at max(clock, device time) and
advances the clock by the chunk duration; along any sequence of enqueues
without an intervening interruption consecutive chunks never overlap, and
whenever the device time seen at an enqueue is at most the end of the
previously scheduled chunk, that chunk starts exactly at the previous start
plus the previous duration (back-to-back, no gap). -/
theorem c1_sequential_playback (st : LCState) (msgs : List (ℚ × ℚ)) :
    (∀ t d, (enqueueDur st t d).2 = max st.nextStartTime t ∧
        (enqueueDur st t d).1.nextStartTime = max st.nextStartTime t + d) ∧
    List.Chain'
      (fun a b => a.start + a.dur ≤ b.start ∧
        (b.t ≤ a.start + a.dur → b.start = a.start + a.dur))
      (enqueueSeq st msgs).2 := by
  refine ⟨fun t d => ⟨rfl, rfl⟩, ?_⟩
  induction msgs generalizing st with
  | nil => simp [enqueueSeq]
  | cons td rest ih =>
    obtain ⟨t, d⟩ := td
    rw [enqueueSeq_cons, List.chain'_cons']
    refine ⟨?_, ih _⟩
    intro b hb
    cases rest with
    | nil => simp [enqueueSeq] at hb
    | cons td' rest' =>
      obtain ⟨t', d'⟩ := td'
      rw [enqueueSeq_cons] at hb
      simp only [List.head?_cons, Option.mem_def, Option.some.injEq] at hb
      subst hb
      have hck : (enqueueDur st t d).1.nextStartTime = max st.nextStartTime t + d := rfl
      constructor
      · simp only [hck]
        exact le_max_left _ _
      · intro hle
        simp only [hck] at hle ⊢
        exact max_eq_left hle

/-- C1 is false as stated: starting from a reset clock, a chunk of duration
1 enqueued at device time 0 followed by a chunk enqueued at device time 5
starts the second chunk at time 5, not at 0 + 1 — the chunks do not play
back-to-back when the output device time overtakes the playback clock. -/
theorem c1_cex :
    ¬ List.Chain' (fun a b => b.start = a.start + a.dur)
      (enqueueSeq ⟨[], 0⟩ [(0, 1), (5, 1)]).2 := by
  rw [enqueueSeq_cons, enqueueSeq_cons, enqueueSeq_nil]
  simp only [List.chain'_cons, List.chain'_singleton, and_true]
  intro hcontra
  have h1 : max (0 : ℚ) 0 = 0 := by norm_num
  have h2 : (enqueueDur ⟨[], 0⟩ 0 1).1.nextStartTime = max (0 : ℚ) 0 + 1 := rfl
  rw [h2, h1] at hcontra
  norm_num at hcontra

/-- C2: `interrupt` (the `stopAllAudio` of the source) empties the live
set, resets the playback clock to 0, stops every live handle — a handle
that already finished makes the underlying stop raise, but the error is
swallowed and nothing propagates — and the next enqueue after the reset is
scheduled at the current device time, not at any previously accumulated
offset. -/
theorem c2_interrupt_resets (st : LCState) (t d : ℚ) (ht : 0 ≤ t) :
    (stopAll st).1.sources = [] ∧
    (stopAll st).1.nextStartTime = 0 ∧
    (∀ s ∈ st.sources, s.finished = false → (tryStop s).stopped = true) ∧
    (∀ s ∈ st.sources, s.finished = true →
        sourceStop s = .error "InvalidStateError" ∧ tryStop s = s) ∧
    (∀ s ∈ (stopAll st).2, s.stopped = true ∨ s.finished = true) ∧
    (enqueueDur (stopAll st).1 t d).2 = t := by
  refine ⟨rfl, rfl, ?_, ?_, ?_, ?_⟩
  · intro s _ hfin
    simp [tryStop, sourceStop, hfin]
  · intro s _ hfin
    simp [tryStop, sourceStop, hfin]
  · intro s hs
    rw [stopAll] at hs
    simp only [List.mem_map] at hs
    obtain ⟨s0, _, rfl⟩ := hs
    by_cases hfin : s0.finished = true
    · exact Or.inr (by simp [tryStop, sourceStop, hfin])
    · simp only [Bool.not_eq_true] at hfin
      exact Or.inl (by simp [tryStop, sourceStop, hfin])
  · show max (0 : ℚ) t = t
    exact max_eq_right ht

theorem c2_interrupt_resets_wit :
    (0 : ℚ) ≤ 2 ∧
    ((stopAll ⟨[⟨0, 1, false, true⟩, ⟨1, 1, false, false⟩], 7⟩).1.sources = [] ∧
      (stopAll ⟨[⟨0, 1, false, true⟩, ⟨1, 1, false, false⟩], 7⟩).1.nextStartTime = 0 ∧
      (∀ s ∈ ([⟨0, 1, false, true⟩, ⟨1, 1, false, false⟩] : List Source),
          s.finished = false → (tryStop s).stopped = true) ∧
      (∀ s ∈ ([⟨0, 1, false, true⟩, ⟨1, 1, false, false⟩] : List Source),
          s.finished = true →
            sourceStop s = .error "InvalidStateError" ∧ tryStop s = s) ∧
      (∀ s ∈ (stopAll ⟨[⟨0, 1, false, true⟩, ⟨1, 1, false, false⟩], 7⟩).2,
          s.stopped = true ∨ s.finished = true) ∧
      (enqueueDur (stopAll ⟨[⟨0, 1, false, true⟩, ⟨1, 1, false, false⟩], 7⟩).1 2 1).2 = 2) :=
  ⟨by norm_num, c2_interrupt_resets ⟨[⟨0, 1, false, true⟩, ⟨1, 1, false, false⟩], 7⟩ 2 1 (by norm_num)⟩

/-! ## Tool-call protocol -/

/-- C3 is false as stated: the handler performs no mode validation — the
entry naming the out-of-enumeration mode BOGUS still yields a mode-change
notification and an acknowledgement correlated to its id, so the batch
produces two notifications, not one. -/
theorem c3_cex :
    handleToolCall
        [⟨1, "setAssistantMode", "HOMEWORK"⟩, ⟨2, "setAssistantMode", "BOGUS"⟩] =
      (["HOMEWORK", "BOGUS"],
        [⟨1, "setAssistantMode", "Mode set to HOMEWORK"⟩,
          ⟨2, "setAssistantMode", "Mode set to BOGUS"⟩]) ∧
    ¬ (handleToolCall
        [⟨1, "setAssistantMode", "HOMEWORK"⟩, ⟨2, "setAssistantMode", "BOGUS"⟩]).1.length = 1 := by
  constructor
  · rfl
  · intro hcontra
    simp [handleToolCall, mkResp] at hcontra

/-- C3 (amended): every batch entry whose function name is
`setAssistantMode` yields exactly one mode-change notification carrying the
entry's mode string — whether or not that string is in the mode
enumeration; no InvalidMode validation is performed — and exactly one
acknowledgement correlated to the entry's id; entries with any other
function name yield neither, and no entry prevents the others in the batch
from being processed. -/
theorem c3_batch_handling (batch : List FC) :
    (handleToolCall batch).1
        = (batch.filter fun fc => fc.name = "setAssistantMode").map FC.mode ∧
    (handleToolCall batch).2
        = (batch.filter fun fc => fc.name = "setAssistantMode").map mkResp := by
  induction batch with
  | nil => exact ⟨rfl, rfl⟩
  | cons fc rest ih =>
    by_cases h : fc.name = "setAssistantMode" <;>
      simp [handleToolCall, List.filter_cons, h, ih.1, ih.2]

/-! ## Message dispatch: first part only -/

/-- C10: for every inbound message only the first content part matters —
the handler's result is unchanged if the later parts are discarded — and at
most one audio chunk is scheduled per message, so inline audio in any
additional part is never decoded or played. -/
theorem c10_first_part_only (st : LCState) (t : ℚ) (tc : List FC)
    (p : Option (List ℕ)) (rest : List (Option (List ℕ))) (intr : Bool) :
    handleMessage st t ⟨tc, p :: rest, intr⟩ = handleMessage st t ⟨tc, [p], intr⟩ ∧
    (handleMessage st t ⟨tc, p :: rest, intr⟩).2.scheduled.length ≤ 1 := by
  constructor
  · cases p with
    | none => rfl
    | some bytes => rfl
  · cases p with
    | none => simp [handleMessage]
    | some bytes =>
      cases hdec : decodeBytes bytes <;> simp [handleMessage, hdec]

/-! ## Decode failure on an inbound chunk -/

/-- A message whose only content part carries a truncated (single-byte)
audio payload. -/
def badMsg : ServerMsg := ⟨[], [some [0]], false⟩

/-- C6 (amended): a malformed inbound chunk fails decoding with a
DecodeError and is dropped — no handle is scheduled — and subsequent
inbound messages continue to be processed on the resulting state; however
the playback clock has already been advanced to max(clock, current device
time) before decoding, so the session state is not otherwise unchanged. -/
theorem c6_decode_error_recovery (st : LCState) (t : ℚ) (msg : ServerMsg)
    (bytes : List ℕ) (err : DecodeErr) (rest : List (ℚ × ServerMsg))
    (hp : msg.parts.head? = some (some bytes))
    (hd : decodeBytes bytes = .error err) :
    (handleMessage st t msg).1.sources = st.sources ∧
    (handleMessage st t msg).1.nextStartTime = max st.nextStartTime t ∧
    (handleMessage st t msg).2.scheduled = [] ∧
    (handleMessage st t msg).2.decodeFailed = true ∧
    (runSession st ((t, msg) :: rest)).1 = (runSession (handleMessage st t msg).1 rest).1 := by
  obtain ⟨tc, parts, intr⟩ := msg
  cases parts with
  | nil => simp at hp
  | cons p ps =>
    simp only [List.head?_cons, Option.some.injEq] at hp
    subst hp
    refine ⟨?_, ?_, ?_, ?_, rfl⟩ <;> simp [handleMessage, hd]

theorem c6_decode_error_recovery_wit :
    badMsg.parts.head? = some (some [0]) ∧
    decodeBytes [0] = .error .truncated ∧
    ((handleMessage ⟨[], 0⟩ 5 badMsg).1.sources = ([] : List Source) ∧
      (handleMessage ⟨[], 0⟩ 5 badMsg).1.nextStartTime = max 0 5 ∧
      (handleMessage ⟨[], 0⟩ 5 badMsg).2.scheduled = [] ∧
      (handleMessage ⟨[], 0⟩ 5 badMsg).2.decodeFailed = true ∧
      (runSession ⟨[], 0⟩ [(5, badMsg)]).1 = (runSession (handleMessage ⟨[], 0⟩ 5 badMsg).1 []).1) :=
  ⟨rfl, rfl, c6_decode_error_recovery ⟨[], 0⟩ 5 badMsg [0] .truncated [] rfl rfl⟩

/-- C6 is false as stated: handling a message whose chunk fails to decode
does change the session state beyond dropping the chunk — with the clock at
0 and the output device time at 5, the clock ends at 5, because it is
bumped to max(clock, device time) before the decode is attempted. -/
theorem c6_cex :
    (handleMessage ⟨[], 0⟩ 5 badMsg).1 ≠ (⟨[], 0⟩ : LCState) := by
  intro hcontra
  have h : (handleMessage ⟨[], 0⟩ 5 badMsg).1.nextStartTime = 0 := by rw [hcontra]
  rw [show (handleMessage ⟨[], 0⟩ 5 badMsg).1.nextStartTime = max 0 5 from rfl] at h
  norm_num at h

/-! ## Session lifecycle and resources -/

/-- C5 evaluated at the failing input: on a connected client the first
`disconnect` succeeds and tears everything down, and a `disconnect` from
the never-connected state is an error-free no-op; but the second
`disconnect` after a successful one reaches the same end state only by
raising — re-closing the already-closed input device context rejects with
InvalidStateError, because the context fields are never cleared or guarded
— contradicting the claim that the second call raises no error. -/
theorem c5_double_disconnect_raises :
    (disconnect connectedRes).2 = none ∧
    (disconnect connectedRes).1 =
      ⟨some true, some true, some true, some false, some false, ⟨[], 0⟩⟩ ∧
    (disconnect (disconnect connectedRes).1).2 = some "InvalidStateError" ∧
    (disconnect (disconnect connectedRes).1).1 = (disconnect connectedRes).1 ∧
    disconnect idleRes = (idleRes, none) := by
  refine ⟨rfl, rfl, rfl, rfl, rfl⟩

/-- C8: if microphone permission acquisition or the remote handshake fails
during connect, exactly one onError callback fires carrying that failure,
the app's connection state ends at ERROR (the spec's FAILED state), and at
most one session-open attempt is made — no automatic retry or reconnect. -/
theorem c8_connect_failure (perm handshake : Except ConnErr Unit) (e : ConnErr)
    (h : perm = .error e ∨ (perm = .ok () ∧ handshake = .error e)) :
    (connectRun perm handshake).1 = [CbEvent.evError e] ∧
    (connectRun perm handshake).1.foldl appStep ConnectionState.CONNECTING
        = ConnectionState.ERROR ∧
    (connectRun perm handshake).2.2 ≤ 1 := by
  rcases h with h | ⟨h1, h2⟩
  · subst h
    exact ⟨rfl, rfl, Nat.zero_le 1⟩
  · subst h1; subst h2
    exact ⟨rfl, rfl, le_refl 1⟩

theorem c8_connect_failure_wit :
    ((Except.error ConnErr.permissionDenied : Except ConnErr Unit)
        = .error ConnErr.permissionDenied ∨
      ((Except.error ConnErr.permissionDenied : Except ConnErr Unit) = .ok () ∧
        (Except.ok () : Except ConnErr Unit) = .error ConnErr.permissionDenied)) ∧
    ((connectRun (.error ConnErr.permissionDenied) (.ok ())).1
        = [CbEvent.evError ConnErr.permissionDenied] ∧
      (connectRun (.error ConnErr.permissionDenied) (.ok ())).1.foldl appStep
          ConnectionState.CONNECTING = ConnectionState.ERROR ∧
      (connectRun (.error ConnErr.permissionDenied) (.ok ())).2.2 ≤ 1) :=
  ⟨Or.inl rfl, c8_connect_failure _ _ _ (Or.inl rfl)⟩

/-- C9 evaluated at the failing input: when the microphone was acquired and
the remote handshake then fails, `connect`'s catch block only invokes
onError — the stream tracks are never stopped and the two already-created
device contexts are never closed, and the app's error path does not call
`disconnect` either — so a terminal (ERROR) state is reached holding the
microphone lock and two open device contexts, contradicting the claim that
every exit path releases them. -/
theorem c9_error_path_leaks :
    (connectRun (.ok ()) (.error ConnErr.connectionError)).2.1.stream = some false ∧
    (connectRun (.ok ()) (.error ConnErr.connectionError)).2.1.inputCtx = some false ∧
    (connectRun (.ok ()) (.error ConnErr.connectionError)).2.1.outputCtx = some false ∧
    (connectRun (.ok ()) (.error ConnErr.connectionError)).1.foldl appStep
        ConnectionState.CONNECTING = ConnectionState.ERROR := by
  refine ⟨rfl, rfl, rfl, rfl⟩

/-! ## Audio capture frame -/

theorem sumSq_nonneg (f : List ℚ) : 0 ≤ sumSq f := by
  induction f with
  | nil => simp [sumSq]
  | cons x r ih => simpa [sumSq] using add_nonneg (mul_self_nonneg x) ih

theorem sumSq_eq_zero (f : List ℚ) (h : ∀ x ∈ f, x = 0) : sumSq f = 0 := by
  induction f with
  | nil => rfl
  | cons x r ih =>
    have hx : x = 0 := h x (by simp)
    simp [sumSq, hx, ih fun y hy => h y (by simp [hy])]

theorem encodeList_length (f : List ℚ) : (encodeList f).length = 2 * f.length := by
  induction f with
  | nil => rfl
  | cons s r ih => simp [encodeList, toLEBytes, ih]; ring

/-- C7: for every captured 4096-sample mono frame, the volume handed to the
audio-level callback is the frame's RMS loudness scaled by 100 (it is
nonnegative and its square is 10000 times the frame's mean square, and an
all-zero frame yields volume 0), and the PCM-encoded frame forwarded to the
outbound channel is 8192 bytes long — 2 bytes per sample. -/
theorem c7_capture_frame (f : List ℚ) (h : f.length = 4096) :
    (createPcmBlob f).length = 8192 ∧
    0 ≤ frameVolume f ∧
    frameVolume f ^ 2 = ((sumSq f : ℚ) : ℝ) / 4096 * 10000 ∧
    ((∀ x ∈ f, x = 0) → frameVolume f = 0) := by
  refine ⟨?_, ?_, ?_, ?_⟩
  · rw [createPcmBlob, encodeList_length, h]
  · exact mul_nonneg (Real.sqrt_nonneg _) (by norm_num)
  · have hnn : (0 : ℚ) ≤ sumSq f / ((4096 : ℕ) : ℚ) :=
      div_nonneg (sumSq_nonneg f) (by norm_num)
    rw [frameVolume, h, mul_pow, Real.sq_sqrt (by exact_mod_cast hnn)]
    push_cast
    ring
  · intro hz
    rw [frameVolume, sumSq_eq_zero f hz]
    norm_num

theorem c7_capture_frame_wit :
    (List.replicate 4096 (0 : ℚ)).length = 4096 ∧
    ((createPcmBlob (List.replicate 4096 (0 : ℚ))).length = 8192 ∧
      0 ≤ frameVolume (List.replicate 4096 (0 : ℚ)) ∧
      frameVolume (List.replicate 4096 (0 : ℚ)) ^ 2
          = ((sumSq (List.replicate 4096 (0 : ℚ)) : ℚ) : ℝ) / 4096 * 10000 ∧
      ((∀ x ∈ List.replicate 4096 (0 : ℚ), x = 0) →
        frameVolume (List.replicate 4096 (0 : ℚ)) = 0)) :=
  ⟨by simp only [List.length_replicate], c7_capture_frame _ (by simp only [List.length_replicate])⟩
